import Mathlib

/-!
Verification development for the crypto research-agent pipeline.

The TypeScript/JavaScript sources are shallowly embedded: every
side-effect-free computation is translated into an executable Lean
definition, asynchronous collaborator calls (LLM, web search, browser
fetch) are turned into explicit parameters holding their outcomes, and
JavaScript platform primitives (String.prototype.split, Array.prototype
sort and filter, Date parsing, regular-expression tests) are modelled by
small total functions whose behaviour on the inputs used here matches the
ECMAScript specification.  Machine floats of the source only ever hold
exact small decimals and integer counts, so they are embedded as
rationals.
-/

namespace CryptoAgentVerify

/-! ## JavaScript platform helpers -/

/-- Whitespace characters recognised by the JavaScript regex class used in
the sources (space, tab, newline, carriage return, vertical tab, form
feed). -/
def isJsWs (c : Char) : Bool :=
  c == ' ' || c == '\t' || c == '\n' || c == '\r' || c == '\x0b' || c == '\x0c'

/-- Fuel-indexed worker for `jsSplitWs`.  The fuel only serves to make the
recursion structural; `jsSplitWs` always supplies enough fuel. -/
def jsSplitWsGo : Nat → List Char → List (List Char)
  | 0, _ => []
  | fuel + 1, cs =>
    let tok := cs.takeWhile (fun c => !isJsWs c)
    let rest := cs.dropWhile (fun c => !isJsWs c)
    match rest with
    | [] => [tok]
    | _ :: _ => tok :: jsSplitWsGo fuel (rest.dropWhile isJsWs)

/-- Model of the JavaScript expression s.split on the regex of one-or-more
whitespace characters: separators are maximal whitespace runs, a leading
or trailing run contributes an empty token, and the empty string splits
into one empty token. -/
def jsSplitWs (cs : List Char) : List (List Char) :=
  jsSplitWsGo (cs.length + 1) cs

/-- JavaScript String.prototype.trim: strip leading and trailing
whitespace. -/
def jsTrim (s : String) : String :=
  String.mk (((s.data.dropWhile isJsWs).reverse.dropWhile isJsWs).reverse)

/-- JavaScript String.prototype.includes / substring containment on
character lists. -/
def listContainsSub (hay needle : List Char) : Bool :=
  (List.range (hay.length + 1)).any (fun i => needle.isPrefixOf (hay.drop i))

/-- JavaScript String.prototype.toLowerCase, modelled characterwise. -/
def jsToLower (s : String) : String := String.mk (s.data.map Char.toLower)

/-- The opening curly-brace character. -/
def openBrace : Char := Char.ofNat 123

/-- The closing curly-brace character. -/
def closeBrace : Char := Char.ofNat 125

/-! ## Stable-sort model of Array.prototype.sort

ECMAScript `Array.prototype.sort` with a comparator is required (since
ES2019) to be stable, and `SortCompare` maps a NaN comparator result to
`+0`.  For a consistent comparator the stable result is unique, so it is
modelled by insertion sort that keeps an element before the first element
it compares less-or-equal to.  The boolean `le a b` below stands for
"comparator(a,b) is not greater than zero". -/

/-- Insert `a` in front of the first element `b` of `l` with `le a b`. -/
def sortInsert (le : α → α → Bool) (a : α) : List α → List α
  | [] => [a]
  | b :: l => if le a b then a :: b :: l else b :: sortInsert le a l

/-- Stable sort by repeated insertion, processing elements right to
left so that equal elements keep their original relative order. -/
def jsStableSort (le : α → α → Bool) (l : List α) : List α :=
  l.foldr (sortInsert le) []

theorem perm_sortInsert (le : α → α → Bool) (a : α) (l : List α) :
    List.Perm (sortInsert le a l) (a :: l) := by
  induction l with
  | nil => exact List.Perm.refl _
  | cons b t ih =>
    cases hle : le a b with
    | true =>
      simp only [sortInsert, hle, if_true]
      exact List.Perm.refl _
    | false =>
      simp only [sortInsert, hle, if_false]
      exact (ih.cons b).trans (List.Perm.swap a b t)

theorem perm_jsStableSort (le : α → α → Bool) (l : List α) :
    List.Perm (jsStableSort le l) l := by
  induction l with
  | nil => exact List.Perm.refl _
  | cons a t ih =>
    have h1 : jsStableSort le (a :: t) = sortInsert le a (jsStableSort le t) := rfl
    rw [h1]
    exact (perm_sortInsert le a (jsStableSort le t)).trans (ih.cons a)

theorem mem_sortInsert {le : α → α → Bool} {a x : α} {l : List α} :
    x ∈ sortInsert le a l ↔ x = a ∨ x ∈ l := by
  have h2 : x ∈ sortInsert le a l ↔ x ∈ a :: l := (perm_sortInsert le a l).mem_iff
  rw [h2, List.mem_cons]

theorem pairwise_sortInsert {R : α → α → Prop}
    (htrans : ∀ x y z, R x y → R y z → R x z)
    (le : α → α → Bool) (a : α) (l : List α)
    (hco : ∀ x ∈ l, (le a x = true → R a x) ∧ (le a x = false → R x a))
    (hl : List.Pairwise R l) : List.Pairwise R (sortInsert le a l) := by
  induction l with
  | nil => simp [sortInsert]
  | cons b t ih =>
    rcases List.pairwise_cons.mp hl with ⟨hbt, ht⟩
    cases hle : le a b with
    | true =>
      simp only [sortInsert, hle, if_true]
      refine List.pairwise_cons.mpr ⟨?_, hl⟩
      intro y hy
      rcases List.mem_cons.mp hy with hyb | hyt
      · subst hyb
        exact (hco y (List.mem_cons_self y t)).1 hle
      · exact htrans a b y ((hco b (List.mem_cons_self b t)).1 hle) (hbt y hyt)
    | false =>
      simp only [sortInsert, hle, if_false]
      refine List.pairwise_cons.mpr ⟨?_, ?_⟩
      · intro y hy
        rcases mem_sortInsert.mp hy with hya | hyt
        · subst hya
          exact (hco b (List.mem_cons_self b t)).2 hle
        · exact hbt y hyt
      · exact ih (fun x hx => hco x (List.mem_cons_of_mem b hx)) ht

theorem pairwise_jsStableSort {R : α → α → Prop}
    (htrans : ∀ x y z, R x y → R y z → R x z)
    (le : α → α → Bool) (l : List α)
    (hco : ∀ a ∈ l, ∀ x ∈ l, (le a x = true → R a x) ∧ (le a x = false → R x a)) :
    List.Pairwise R (jsStableSort le l) := by
  induction l with
  | nil => simp [jsStableSort]
  | cons a t ih =>
    have h1 : jsStableSort le (a :: t) = sortInsert le a (jsStableSort le t) := rfl
    rw [h1]
    refine pairwise_sortInsert htrans le a (jsStableSort le t) ?_ ?_
    · intro x hx
      have hxt : x ∈ t := (perm_jsStableSort le t).mem_iff.mp hx
      exact hco a (List.mem_cons_self a t) x (List.mem_cons_of_mem a hxt)
    · exact ih (fun p hp q hq =>
        hco p (List.mem_cons_of_mem a hp) q (List.mem_cons_of_mem a hq))

/-! ## Universal Content Scraper, part_000 variant

Source: src/unnamed/part_000, class UniversalScraper.  The four
extraction strategies are network-bound; their outcomes enter the model
as four `Option FetchResult` values (`none` models a rejected promise,
`some` with empty content models a fulfilled promise whose extraction
found nothing).  Title extraction via cheerio and hostname parsing via
`new URL` are platform primitives and enter as the function parameters
`titleOf` and `hostOf`; no claim depends on them. -/

structure ScrapedMeta where
  relevanceScore : ℚ
  wordCount : Nat
  source : String
deriving Repr, DecidableEq

structure ScrapedContent where
  url : String
  title : String
  content : String
  cleanedContent : String
  metadata : ScrapedMeta
deriving Repr, DecidableEq

/-- Source part_000 lines 263-287: cleanedContent is content.substring(0,
8000); wordCount counts the whitespace-split tokens of the cleaned
content; relevanceScore is max(0.3, min(0.9, wordCount / 800)). -/
def buildScrapedContent (titleOf hostOf : String → String)
    (url content html : String) : ScrapedContent :=
  let cleanedContent := String.mk (content.data.take 8000)
  let wordCount := (jsSplitWs cleanedContent.data).length
  let relevanceScore : ℚ := max ((3 : ℚ)/10) (min ((9 : ℚ)/10) ((wordCount : ℚ) / 800))
  { url := url
    title := titleOf html
    content := content
    cleanedContent := cleanedContent
    metadata :=
      { relevanceScore := relevanceScore
        wordCount := wordCount
        source := hostOf url } }

theorem buildScrapedContent_content (titleOf hostOf : String → String)
    (url content html : String) :
    (buildScrapedContent titleOf hostOf url content html).content = content := rfl

theorem buildScrapedContent_cleaned (titleOf hostOf : String → String)
    (url content html : String) :
    (buildScrapedContent titleOf hostOf url content html).cleanedContent =
      String.mk (content.data.take 8000) := rfl

theorem buildScrapedContent_wordCount (titleOf hostOf : String → String)
    (url content html : String) :
    (buildScrapedContent titleOf hostOf url content html).metadata.wordCount =
      (jsSplitWs (content.data.take 8000)).length := rfl

theorem buildScrapedContent_relevance (titleOf hostOf : String → String)
    (url content html : String) :
    (buildScrapedContent titleOf hostOf url content html).metadata.relevanceScore =
      max ((3 : ℚ)/10) (min ((9 : ℚ)/10)
        (((jsSplitWs (content.data.take 8000)).length : ℚ) / 800)) := rfl

structure FetchResult where
  content : String
  html : String
deriving Repr, DecidableEq

/-- Source part_000 lines 151-157: pair each settled strategy with its
method name and keep the fulfilled ones whose content is truthy
(non-empty). -/
def scrapeCandidates (s1 s2 s3 s4 : Option FetchResult) :
    List (String × FetchResult) :=
  ([(("axios-cheerio" : String), s1), ("playwright-cheerio", s2),
    ("axios-readability", s3), ("playwright-readability", s4)]).filterMap
    (fun m => match m.2 with
      | some v => if v.content ≠ "" then some (m.1, v) else none
      | none => none)

/-- Source part_000 lines 164-166: results.reduce keeping the entry with
the strictly larger content length (first wins ties). -/
def pickBest (x : String × FetchResult) (xs : List (String × FetchResult)) :
    String × FetchResult :=
  xs.foldl (fun best curr =>
    if curr.2.content.length > best.2.content.length then curr else best) x

/-- Source part_000 lines 141-171: run the four strategies, keep fulfilled
non-empty results, throw when none remain, otherwise build the scraped
content from the longest result. -/
def scrapeUrl (titleOf hostOf : String → String) (url : String)
    (s1 s2 s3 s4 : Option FetchResult) : Except String ScrapedContent :=
  match scrapeCandidates s1 s2 s3 s4 with
  | [] => Except.error ("All methods failed")
  | x :: xs =>
    let best := pickBest x xs
    Except.ok (buildScrapedContent titleOf hostOf url best.2.content best.2.html)

/-- A strategy outcome that contributes nothing: the promise rejected or
the extracted content was empty. -/
def strategyEmptyOrFailed (s : Option FetchResult) : Prop :=
  s = none ∨ ∃ v, s = some v ∧ v.content = ""

theorem pickBest_mem (x : String × FetchResult) (xs : List (String × FetchResult)) :
    pickBest x xs ∈ x :: xs := by
  induction xs generalizing x with
  | nil => exact List.mem_cons_self x []
  | cons y ys ih =>
    have h1 : pickBest x (y :: ys) =
        pickBest (if y.2.content.length > x.2.content.length then y else x) ys := rfl
    by_cases hc : y.2.content.length > x.2.content.length
    · rw [h1, if_pos hc]
      exact List.mem_cons_of_mem x (ih y)
    · rw [h1, if_neg hc]
      rcases List.mem_cons.mp (ih x) with h | h
      · rw [h]; exact List.mem_cons_self x (y :: ys)
      · exact List.mem_cons_of_mem x (List.mem_cons_of_mem y h)

theorem pickBest_ge (x : String × FetchResult) (xs : List (String × FetchResult)) :
    ∀ y ∈ x :: xs, y.2.content.length ≤ (pickBest x xs).2.content.length := by
  induction xs generalizing x with
  | nil =>
    intro y hy
    have hx : y = x := by simpa using hy
    subst hx
    exact le_refl _
  | cons z zs ih =>
    intro y hy
    have h1 : pickBest x (z :: zs) =
        pickBest (if z.2.content.length > x.2.content.length then z else x) zs := rfl
    by_cases hc : z.2.content.length > x.2.content.length
    · rw [h1, if_pos hc]
      have hz : z.2.content.length ≤ (pickBest z zs).2.content.length :=
        ih z z (List.mem_cons_self z zs)
      rcases List.mem_cons.mp hy with rfl | h
      · exact le_trans (le_of_lt hc) hz
      · rcases List.mem_cons.mp h with rfl | h2
        · exact hz
        · exact ih z y (List.mem_cons_of_mem z h2)
    · rw [h1, if_neg hc]
      have hx : x.2.content.length ≤ (pickBest x zs).2.content.length :=
        ih x x (List.mem_cons_self x zs)
      rcases List.mem_cons.mp hy with rfl | h
      · exact hx
      · rcases List.mem_cons.mp h with rfl | h2
        · exact le_trans (le_of_not_lt hc) hx
        · exact ih x y (List.mem_cons_of_mem x h2)

/-- C1: for every URL, among the strategies that returned non-empty
content the scraper returns a result whose content is one of those
strategies' contents and has maximal character count; in particular when
exactly one strategy returned non-empty content, `scrapeUrl` succeeds
with exactly that strategy's content. -/
theorem scrapeUrl_selects_longest (titleOf hostOf : String → String)
    (url : String) (s1 s2 s3 s4 : Option FetchResult)
    (h : scrapeCandidates s1 s2 s3 s4 ≠ []) :
    ∃ sc, scrapeUrl titleOf hostOf url s1 s2 s3 s4 = Except.ok sc ∧
      sc.content ∈ (scrapeCandidates s1 s2 s3 s4).map (fun m => m.2.content) ∧
      (∀ c ∈ (scrapeCandidates s1 s2 s3 s4).map (fun m => m.2.content),
        c.length ≤ sc.content.length) ∧
      (∀ v, scrapeCandidates s1 s2 s3 s4 = [v] → sc.content = v.2.content) := by
  rcases hcs : scrapeCandidates s1 s2 s3 s4 with _ | ⟨x, xs⟩
  · exact absurd hcs h
  · refine ⟨buildScrapedContent titleOf hostOf url (pickBest x xs).2.content
      (pickBest x xs).2.html, ?_, ?_, ?_, ?_⟩
    · simp [scrapeUrl, hcs]
    · rw [buildScrapedContent_content]
      exact List.mem_map.mpr ⟨pickBest x xs, pickBest_mem x xs, rfl⟩
    · intro c hc
      rcases List.mem_map.mp hc with ⟨y, hy, rfl⟩
      rw [buildScrapedContent_content]
      exact pickBest_ge x xs y hy
    · intro v hv
      injection hv with hx hxs
      subst hx; subst hxs
      rw [buildScrapedContent_content]
      rfl

/-- C1 witness: with only the playwright-cheerio strategy returning
non-empty content, scrapeUrl succeeds with that content. -/
theorem scrapeUrl_selects_longest_witness :
    ∃ sc, scrapeUrl (fun _ => ("t")) (fun _ => ("h")) ("u")
        none (some ⟨"hello", "html"⟩) none none = Except.ok sc ∧
      sc.content = "hello" := by
  obtain ⟨sc, hok, _, _, hone⟩ := scrapeUrl_selects_longest
    (fun _ => ("t")) (fun _ => ("h")) ("u")
    none (some ⟨"hello", "html"⟩) none none (by decide)
  exact ⟨sc, hok, hone (("playwright-cheerio" : String), ⟨"hello", "html"⟩) (by decide)⟩

/-- C2: when every strategy fails or yields empty content, scrapeUrl
rejects with the all-strategies-failed error instead of returning a
ScrapedContent value. -/
theorem scrapeUrl_all_failed (titleOf hostOf : String → String)
    (url : String) (s1 s2 s3 s4 : Option FetchResult)
    (h1 : strategyEmptyOrFailed s1) (h2 : strategyEmptyOrFailed s2)
    (h3 : strategyEmptyOrFailed s3) (h4 : strategyEmptyOrFailed s4) :
    scrapeUrl titleOf hostOf url s1 s2 s3 s4 = Except.error ("All methods failed") := by
  rcases h1 with rfl | ⟨v1, rfl, hv1⟩ <;>
    rcases h2 with rfl | ⟨v2, rfl, hv2⟩ <;>
      rcases h3 with rfl | ⟨v3, rfl, hv3⟩ <;>
        rcases h4 with rfl | ⟨v4, rfl, hv4⟩ <;>
          simp_all [scrapeUrl, scrapeCandidates]

/-- C2 witness: with all four strategies rejected, scrapeUrl reports the
all-strategies-failed error. -/
theorem scrapeUrl_all_failed_witness :
    scrapeUrl (fun _ => ("t")) (fun _ => ("h")) ("u") none none none none =
      Except.error ("All methods failed") :=
  scrapeUrl_all_failed (fun _ => ("t")) (fun _ => ("h")) ("u") none none none none
    (Or.inl rfl) (Or.inl rfl) (Or.inl rfl) (Or.inl rfl)

theorem mk_data (s : String) : String.mk s.data = s := by cases s; rfl

theorem mk_append_mk (a b : List Char) :
    String.mk a ++ String.mk b = String.mk (a ++ b) := rfl

/-- C3: for part_000-scraped content, the cleaned content is a prefix of
the raw content of length at most 8000, and when the word count is
positive the relevance score equals the clamp of wordCount/800 to the
interval from 0.3 to 0.9 and therefore lies in that interval. -/
theorem buildScrapedContent_bounds (titleOf hostOf : String → String)
    (url content html : String) (sc : ScrapedContent)
    (hsc : sc = buildScrapedContent titleOf hostOf url content html) :
    (∃ rest, content = sc.cleanedContent ++ rest) ∧
    sc.cleanedContent.length ≤ 8000 ∧
    (0 < sc.metadata.wordCount →
      sc.metadata.relevanceScore =
        max ((3 : ℚ)/10) (min ((9 : ℚ)/10) ((sc.metadata.wordCount : ℚ) / 800)) ∧
      (3 : ℚ)/10 ≤ sc.metadata.relevanceScore ∧
      sc.metadata.relevanceScore ≤ (9 : ℚ)/10) := by
  subst hsc
  refine ⟨⟨String.mk (content.data.drop 8000), ?_⟩, ?_, ?_⟩
  · rw [buildScrapedContent_cleaned, mk_append_mk, List.take_append_drop]
  · rw [buildScrapedContent_cleaned]
    have hlen : (String.mk (content.data.take 8000)).length =
        (content.data.take 8000).length := rfl
    rw [hlen, List.length_take]
    exact min_le_left _ _
  · intro _
    refine ⟨?_, ?_, ?_⟩
    · rw [buildScrapedContent_relevance, buildScrapedContent_wordCount]
    · rw [buildScrapedContent_relevance]
      exact le_max_left _ _
    · rw [buildScrapedContent_relevance]
      exact max_le (by norm_num) (min_le_left _ _)

/-- C3 witness: a concrete two-word content produced by the part_000
scraper has relevance score exactly 0.3, inside the required interval. -/
theorem buildScrapedContent_bounds_witness :
    (3 : ℚ)/10 ≤ (buildScrapedContent (fun _ => ("t")) (fun _ => ("h"))
        ("u") ("alpha beta") ("html")).metadata.relevanceScore ∧
    (buildScrapedContent (fun _ => ("t")) (fun _ => ("h"))
        ("u") ("alpha beta") ("html")).metadata.relevanceScore ≤ (9 : ℚ)/10 := by
  have h := buildScrapedContent_bounds (fun _ => ("t")) (fun _ => ("h"))
    ("u") ("alpha beta") ("html")
    (buildScrapedContent (fun _ => ("t")) (fun _ => ("h")) ("u") ("alpha beta") ("html"))
    rfl
  have hwc : 0 < (buildScrapedContent (fun _ => ("t")) (fun _ => ("h"))
      ("u") ("alpha beta") ("html")).metadata.wordCount := by decide
  exact ⟨(h.2.2 hwc).2.1, (h.2.2 hwc).2.2⟩

/-! ## Universal Content Scraper, services/scraper.ts variant

Source: src/src/services/scraper.ts.  Its cleanContent collapses
whitespace runs, trims, and truncates at the constructor default
maxContentLength of 50000 (the pipeline constructs the scraper with no
options); after the first replace no newline remains, so the
newline-triple replace that follows it in the source can never match and
is dropped from the model.  Its calculateRelevance counts crypto-keyword
occurrences rather than clamping a word-count ratio.  Author,
publishDate, tags and method fields are omitted: no claim mentions
them. -/

/-- Fuel-indexed worker collapsing each whitespace run to one space
(JavaScript replace of one-or-more whitespace by a single space). -/
def collapseWsGo : Nat → List Char → List Char
  | 0, _ => []
  | _ + 1, [] => []
  | fuel + 1, c :: cs =>
    if isJsWs c then ' ' :: collapseWsGo fuel (cs.dropWhile isJsWs)
    else c :: collapseWsGo fuel cs

/-- Collapse every whitespace run to a single space. -/
def collapseWs (l : List Char) : List Char := collapseWsGo (l.length + 1) l

/-- Source scraper.ts cleanContent: collapse whitespace, trim, truncate to
50000 characters. -/
def cleanContentTs (content : String) : String :=
  String.mk (((((collapseWs content.data).dropWhile isJsWs).reverse.dropWhile
    isJsWs).reverse).take 50000)

/-- Fuel-indexed non-overlapping occurrence counter, modelling the length
of a global regex match list for a literal keyword. -/
def countOccGo (needle : List Char) : Nat → List Char → Nat
  | 0, _ => 0
  | fuel + 1, hay =>
    if needle.isPrefixOf hay then 1 + countOccGo needle fuel (hay.drop needle.length)
    else
      match hay with
      | [] => 0
      | _ :: t => countOccGo needle fuel t

/-- Count non-overlapping occurrences of `needle` in `hay`. -/
def countOcc (hay needle : List Char) : Nat := countOccGo needle (hay.length + 1) hay

/-- Source scraper.ts calculateRelevance: sum the occurrence counts of six
crypto keywords over lowercased content-plus-title, divide by 10, cap at
1.0. -/
def calculateRelevance (content title : String) : ℚ :=
  let text := jsToLower (content ++ " " ++ title)
  let score : Nat := (([("bitcoin" : String), "ethereum", "crypto", "blockchain",
    "defi", "nft"]).map (fun w => countOcc text.data w.data)).sum
  min ((score : ℚ) / 10) 1

structure ScrapedContentTs where
  url : String
  title : String
  content : String
  cleanedContent : String
  wordCount : Nat
  readingTime : Nat
  relevanceScore : ℚ
  source : String
deriving Repr, DecidableEq

/-- Source scraper.ts buildScrapedContent. -/
def buildScrapedContentTs (titleOf hostOf : String → String)
    (url content html : String) : ScrapedContentTs :=
  let cleanedContent := cleanContentTs content
  let wordCount := (jsSplitWs cleanedContent.data).length
  { url := url
    title := titleOf html
    content := content
    cleanedContent := cleanedContent
    wordCount := wordCount
    readingTime := (wordCount + 199) / 200
    relevanceScore := calculateRelevance cleanedContent (titleOf html)
    source := hostOf url }

/-- C3 counterexample: the services/scraper.ts variant of the scraper
violates the claim: for the content "hello world" the word count is
positive yet the relevance score is 0, outside the claimed interval from
0.3 to 0.9 and different from the claimed clamp formula. -/
theorem buildScrapedContentTs_violates_bounds :
    0 < (buildScrapedContentTs (fun _ => ("t")) (fun _ => ("h"))
        ("u") ("hello world") ("html")).wordCount ∧
    (buildScrapedContentTs (fun _ => ("t")) (fun _ => ("h"))
        ("u") ("hello world") ("html")).relevanceScore = 0 ∧
    ¬ ((3 : ℚ)/10 ≤ (buildScrapedContentTs (fun _ => ("t")) (fun _ => ("h"))
        ("u") ("hello world") ("html")).relevanceScore) := by
  have hrel : (buildScrapedContentTs (fun _ => ("t")) (fun _ => ("h"))
      ("u") ("hello world") ("html")).relevanceScore = 0 := by
    show calculateRelevance (cleanContentTs ("hello world")) ("t") = 0
    have h0 : (([("bitcoin" : String), "ethereum", "crypto", "blockchain",
        "defi", "nft"]).map (fun w =>
          countOcc (jsToLower (cleanContentTs ("hello world") ++ " " ++ ("t"))).data
            w.data)).sum = 0 := by decide
    simp only [calculateRelevance]
    rw [h0]
    norm_num
  refine ⟨by decide, hrel, ?_⟩
  rw [hrel]
  norm_num

/-! ## Natural content ordering, part_000 variant

Source: src/unnamed/part_000 lines 445-449, sortContentNaturally. -/

/-- The comparator of the source sort call: b.relevanceScore minus
a.relevanceScore. -/
def scoreCmp (a b : ScrapedContent) : ℚ :=
  b.metadata.relevanceScore - a.metadata.relevanceScore

/-- An element stays before another exactly when the comparator is not
positive. -/
def scoreLe (a b : ScrapedContent) : Bool := decide (scoreCmp a b ≤ 0)

/-- Source part_000 sortContentNaturally: keep contents with relevance at
least 0.1, then sort by relevance descending. -/
def sortContentNaturally (contents : List ScrapedContent) : List ScrapedContent :=
  jsStableSort scoreLe
    (contents.filter (fun c => decide ((1 : ℚ)/10 ≤ c.metadata.relevanceScore)))

/-- C10: on any list of contents produced by the part_000 scraper the
relevance filter of sortContentNaturally removes nothing (every produced
relevance score is at least 0.3), so the result is a permutation of the
input sorted by relevance score descending and prompt assembly sees every
scraped document. -/
theorem sortContentNaturally_keeps_all (l : List ScrapedContent)
    (h : ∀ c ∈ l, ∃ tf hf u s ht, c = buildScrapedContent tf hf u s ht) :
    List.Perm (sortContentNaturally l) l ∧
    List.Pairwise
      (fun a b => b.metadata.relevanceScore ≤ a.metadata.relevanceScore)
      (sortContentNaturally l) := by
  have hdef : sortContentNaturally l =
      jsStableSort scoreLe
        (l.filter (fun c => decide ((1 : ℚ)/10 ≤ c.metadata.relevanceScore))) := rfl
  have hkeep : l.filter (fun c => decide ((1 : ℚ)/10 ≤ c.metadata.relevanceScore)) = l := by
    apply List.filter_eq_self.mpr
    intro c hc
    rcases h c hc with ⟨tf, hf, u, s, ht, rfl⟩
    rw [decide_eq_true_eq, buildScrapedContent_relevance]
    exact le_trans (by norm_num) (le_max_left _ _)
  constructor
  · rw [hdef, hkeep]
    exact perm_jsStableSort _ _
  · rw [hdef, hkeep]
    refine pairwise_jsStableSort ?_ scoreLe l ?_
    · intro x y z hxy hyz
      exact le_trans hyz hxy
    · intro a _ x _
      constructor
      · intro htrue
        have := of_decide_eq_true htrue
        have h2 : scoreCmp a x ≤ 0 := this
        exact sub_nonpos.mp h2
      · intro hfalse
        have := of_decide_eq_false hfalse
        have h2 : ¬ scoreCmp a x ≤ 0 := this
        have h3 : 0 < x.metadata.relevanceScore - a.metadata.relevanceScore :=
          lt_of_not_le h2
        exact le_of_lt (sub_pos.mp h3)

/-- C10 witness: a singleton list of scraped content passes through
sortContentNaturally unchanged. -/
theorem sortContentNaturally_keeps_all_witness :
    List.Perm
      (sortContentNaturally
        [buildScrapedContent (fun _ => ("t")) (fun _ => ("h"))
          ("u") ("alpha beta") ("html")])
      [buildScrapedContent (fun _ => ("t")) (fun _ => ("h"))
        ("u") ("alpha beta") ("html")] := by
  refine (sortContentNaturally_keeps_all _ ?_).1
  intro c hc
  rcases List.mem_singleton.mp hc with rfl
  exact ⟨_, _, _, _, _, rfl⟩

/-! ## Rate-Limited Batch Executor

Source: src/unnamed/part_013 (and the identical copy in part_000 lines
335-375).  The per-item asynchronous action may behave differently on
each retry, so it enters the model as a function from the attempt number
to an outcome; a thrown JavaScript error carries an optional response
status and an optional message. -/

structure JsError where
  responseStatus : Option Nat
  message : Option String
deriving Repr, DecidableEq

/-- Model of the test of the regex rate(dot)limit with ignore-case flag:
somewhere in the lowercased message, "rate" followed by at most one
non-newline character followed by "limit". -/
def rateLimitTest (msg : String) : Bool :=
  let cs := (jsToLower msg).data
  (List.range (cs.length + 1)).any (fun i =>
    let rest := cs.drop i
    (("ratelimit" : String)).data.isPrefixOf rest ||
    ((("rate" : String)).data.isPrefixOf rest &&
      (match rest.drop 4 with
       | c :: r => !(c == '\n') && !(c == '\r') && (("limit" : String)).data.isPrefixOf r
       | [] => false)))

/-- Source part_013 line 22: an error counts as rate limiting when its
response status is 429 or its message is truthy and matches the
rate-limit pattern. -/
def isRateLimitError (e : JsError) : Bool :=
  e.responseStatus == some 429 ||
    (match e.message with
     | some m => (!(m == "")) && rateLimitTest m
     | none => false)

inductive AttemptOutcome (R : Type) where
  | ok (value : R)
  | err (e : JsError)
deriving Repr, DecidableEq

/-- Fuel-indexed worker for the retry loop of part_013 lines 15-35: call
the action, return its value on success, retry (up to maxRetries times)
on a rate-limit error, record null otherwise. -/
def runWithRetriesGo (outcomes : Nat → AttemptOutcome R) (maxRetries : Nat) :
    Nat → Nat → Option R
  | 0, _ => none
  | fuel + 1, attempt =>
    match outcomes attempt with
    | .ok v => some v
    | .err e =>
      if isRateLimitError e && decide (attempt < maxRetries) then
        runWithRetriesGo outcomes maxRetries fuel (attempt + 1)
      else none

/-- The retry loop starting at attempt 0; maxRetries + 1 fuel always
suffices because the attempt counter must stay at most maxRetries. -/
def runWithRetries (outcomes : Nat → AttemptOutcome R) (maxRetries : Nat) : Option R :=
  runWithRetriesGo outcomes maxRetries (maxRetries + 1) 0

/-- Fuel-indexed worker for the chunking loop of part_013 lines 12-42.
Exhausted fuel (`none`) models non-termination of the JavaScript loop;
`batchProcessWithRateLimit` supplies fuel that is sufficient whenever the
batch size is positive. -/
def bpGo (fn : T → Nat → AttemptOutcome R) (batchSize maxRetries : Nat) :
    Nat → List T → List (Option R) → Option (List (Option R))
  | _, [], acc => some acc
  | 0, _ :: _, _ => none
  | fuel + 1, x :: xs, acc =>
    let batch := (x :: xs).take batchSize
    let batchResults := batch.map (fun it => runWithRetries (fn it) maxRetries)
    bpGo fn batchSize maxRetries fuel ((x :: xs).drop batchSize) (acc ++ batchResults)

/-- Source part_013 batchProcessWithRateLimit: process consecutive chunks
of batchSize items, each item through the retry loop. -/
def batchProcessWithRateLimit (items : List T) (batchSize : Nat)
    (fn : T → Nat → AttemptOutcome R) (maxRetries : Nat) : Option (List (Option R)) :=
  bpGo fn batchSize maxRetries items.length items []

theorem bpGo_spec (fn : T → Nat → AttemptOutcome R) (batchSize maxRetries : Nat)
    (hbs : 1 ≤ batchSize) :
    ∀ fuel (items : List T) (acc : List (Option R)), items.length ≤ fuel →
      bpGo fn batchSize maxRetries fuel items acc =
        some (acc ++ items.map (fun it => runWithRetries (fn it) maxRetries)) := by
  intro fuel
  induction fuel with
  | zero =>
    intro items acc h
    have hnil : items = [] := List.eq_nil_of_length_eq_zero (Nat.le_zero.mp h)
    subst hnil
    simp [bpGo]
  | succ n ih =>
    intro items acc h
    cases items with
    | nil => simp [bpGo]
    | cons x xs =>
      have hstep : bpGo fn batchSize maxRetries (n + 1) (x :: xs) acc =
          bpGo fn batchSize maxRetries n ((x :: xs).drop batchSize)
            (acc ++ ((x :: xs).take batchSize).map
              (fun it => runWithRetries (fn it) maxRetries)) := rfl
      have hlen : ((x :: xs).drop batchSize).length ≤ n := by
        rw [List.length_drop]
        have hx : (x :: xs).length ≤ n + 1 := h
        omega
      rw [hstep, ih _ _ hlen, List.append_assoc, ← List.map_append,
        List.take_append_drop]

/-- C4 (amended): for every positive batch size the executor returns an
array of the same length as the input in which position i holds the retry
outcome of the action on item i, and an item whose first attempt fails
with an error not classified as rate limiting is recorded as null with no
retry. -/
theorem batchProcess_order_and_nulls (items : List T) (batchSize : Nat)
    (fn : T → Nat → AttemptOutcome R) (maxRetries : Nat) (hbs : 1 ≤ batchSize) :
    batchProcessWithRateLimit items batchSize fn maxRetries =
      some (items.map (fun it => runWithRetries (fn it) maxRetries)) ∧
    (∀ it e, fn it 0 = AttemptOutcome.err e → isRateLimitError e = false →
      runWithRetries (fn it) maxRetries = none) := by
  constructor
  · have h := bpGo_spec fn batchSize maxRetries hbs items.length items [] (le_refl _)
    simpa [batchProcessWithRateLimit] using h
  · intro it e he hrl
    show runWithRetriesGo (fn it) maxRetries (maxRetries + 1) 0 = none
    simp [runWithRetriesGo, he, hrl]

/-- C4 witness: two always-succeeding items with batch size 5 come back in
order. -/
theorem batchProcess_order_and_nulls_witness :
    batchProcessWithRateLimit [(10 : Nat), 20] 5
      (fun it _ => AttemptOutcome.ok it) 4 = some [some 10, some 20] := by
  have h := (batchProcess_order_and_nulls [(10 : Nat), 20] 5
    (fun it _ => AttemptOutcome.ok it) 4 (by norm_num)).1
  rw [h]
  rfl

/-- With batch size zero and a non-empty item list, the chunking loop
makes no progress: no amount of fuel produces a result, which models the
infinite loop of the JavaScript for-loop whose index never advances. -/
theorem bpGo_batchSize_zero_diverges (fn : T → Nat → AttemptOutcome R)
    (maxRetries : Nat) :
    ∀ fuel (x : T) (xs : List T) (acc : List (Option R)),
      bpGo fn 0 maxRetries fuel (x :: xs) acc = none := by
  intro fuel
  induction fuel with
  | zero => intro x xs acc; rfl
  | succ n ih =>
    intro x xs acc
    have hstep : bpGo fn 0 maxRetries (n + 1) (x :: xs) acc =
        bpGo fn 0 maxRetries n ((x :: xs).drop 0)
          (acc ++ ((x :: xs).take 0).map
            (fun it => runWithRetries (fn it) maxRetries)) := rfl
    rw [hstep]
    simp only [List.drop_zero, List.take_zero, List.map_nil, List.append_nil]
    exact ih x xs acc

/-- C4 counterexample: with batch size 0 and a single item the executor
never returns (the model reports none for the fuel it is given, and
bpGo_batchSize_zero_diverges shows no fuel would help), so the claim
fails for batch size 0. -/
theorem batchProcess_zero_batch_counterexample :
    batchProcessWithRateLimit [(0 : Nat)] 0
      (fun it _ => AttemptOutcome.ok it) 4 = none := rfl

/-! ## Search Orchestrator merge

Source: src/src/services/search.js lines 45-54 (identical copy in
part_000 lines 414-423).  Each per-query action maps its Exa hits to
records whose publishedDate is the provider string or the literal
"Unknown Date"; the merge flattens the batch results dropping nulls,
deduplicates by URL keeping the first occurrence, truncates to 15, and
sorts with the comparator dateB minus dateA.  JavaScript Date parsing is
modelled for date-only ISO strings; any other string (such as
"Unknown Date") is an invalid date whose time value is NaN, and the
ECMAScript SortCompare treats a NaN comparator value as zero.  The
integer key is a strictly monotone encoding of the calendar date, which
is all the comparator sign test observes. -/

structure ExaResult where
  url : String
  title : String
  publishedDate : String
  query : String
deriving Repr, DecidableEq

/-- Numeric value of a digit character. -/
def digitVal (c : Char) : Nat := c.toNat - 48

/-- Model of JavaScript Date parsing restricted to date-only ISO strings
of the shape YYYY-MM-DD; everything else is an invalid date (none). -/
def jsDateParse (s : String) : Option Int :=
  match s.data with
  | [y1, y2, y3, y4, h1, m1, m2, h2, d1, d2] =>
    if y1.isDigit && y2.isDigit && y3.isDigit && y4.isDigit &&
        (h1 == '-') && m1.isDigit && m2.isDigit && (h2 == '-') &&
        d1.isDigit && d2.isDigit then
      let y := digitVal y1 * 1000 + digitVal y2 * 100 + digitVal y3 * 10 + digitVal y4
      let m := digitVal m1 * 10 + digitVal m2
      let d := digitVal d1 * 10 + digitVal d2
      if 1 ≤ m && m ≤ 12 && 1 ≤ d && d ≤ 31 then
        some ((y : Int) * 10000 + (m : Int) * 100 + (d : Int))
      else none
    else none
  | _ => none

/-- The date key the comparator computes for a hit: the 1900-01-01
fallback applies only when publishedDate is the empty string (falsy). -/
def exaDateOf (r : ExaResult) : Option Int :=
  jsDateParse (if r.publishedDate = "" then ("1900-01-01") else r.publishedDate)

/-- The sort comparator of the source: dateB minus dateA, with NaN
(either date invalid) mapped to zero as SortCompare prescribes. -/
def exaCmp (a b : ExaResult) : Int :=
  match exaDateOf a, exaDateOf b with
  | some ka, some kb => kb - ka
  | _, _ => 0

/-- Comparator-not-positive test driving the stable sort. -/
def exaLe (a b : ExaResult) : Bool := decide (exaCmp a b ≤ 0)

/-- Source search.js lines 46-48: keep exactly the hits whose index
equals the first index holding the same url. -/
def dedupByUrl (l : List ExaResult) : List ExaResult :=
  (l.enum.filter
    (fun p => l.findIdx? (fun s => s.url == p.2.url) == some p.1)).map Prod.snd

/-- Source search.js lines 45-54: flatten dropping nulls, deduplicate by
url, truncate to 15, then sort by publish date descending. -/
def searchWithExaMerge (batchResults : List (Option (List ExaResult))) :
    List ExaResult :=
  let allResults := (batchResults.filterMap id).flatten
  let uniqueResults := dedupByUrl allResults
  let finalResults := uniqueResults.take 15
  jsStableSort exaLe finalResults

/-- Modelled from the spec's words, for comparison with the code: the
spec says hits with absent or unparsable dates sort as if dated
1900-01-01 (integer key 19000101). -/
def specKey (r : ExaResult) : Int := (jsDateParse r.publishedDate).getD 19000101

/-- Sort order demanded by the spec sentence: date key descending with
the 1900-01-01 default. -/
def specLe (a b : ExaResult) : Bool := decide (specKey b ≤ specKey a)

/-- Modelled from the spec: the merge as the spec describes it, with the
unparsable-date hits sorting as oldest. -/
def specMergeSorted (batchResults : List (Option (List ExaResult))) :
    List ExaResult :=
  jsStableSort specLe ((dedupByUrl ((batchResults.filterMap id).flatten)).take 15)

theorem find?_of_findIdx? (p : α → Bool) :
    ∀ (l : List α) (i : Nat), List.findIdx? p l = some i →
      ∀ a, l[i]? = some a → l.find? p = some a := by
  intro l
  induction l with
  | nil => intro i h; rw [List.findIdx?_nil] at h; exact absurd h (by simp)
  | cons x xs ih =>
    intro i h a ha
    rw [List.findIdx?_cons] at h
    by_cases hp : p x
    · rw [if_pos hp] at h
      injection h with h0
      subst h0
      have hax : x = a := by simpa using ha
      subst hax
      exact List.find?_cons_of_pos xs hp
    · rw [if_neg hp, List.findIdx?_succ] at h
      rcases Option.map_eq_some'.mp h with ⟨j, hj, hji⟩
      subst hji
      have ha' : xs[j]? = some a := by simpa using ha
      rw [List.find?_cons_of_neg xs hp]
      exact ih j hj a ha'

theorem pairwise_enumFrom (l : List α) :
    ∀ n, List.Pairwise (fun p q : Nat × α => p.1 < q.1) (List.enumFrom n l) := by
  induction l with
  | nil => intro n; simp
  | cons x xs ih =>
    intro n
    rw [List.enumFrom_cons]
    refine List.pairwise_cons.mpr ⟨?_, ih (n + 1)⟩
    intro q hq
    obtain ⟨i, b⟩ := q
    have h2 := List.mem_enumFrom hq
    have h3 : n + 1 ≤ i := h2.1
    show n < i
    omega

theorem dedupByUrl_first (l : List ExaResult) (r : ExaResult)
    (h : r ∈ dedupByUrl l) :
    l.find? (fun s => s.url == r.url) = some r := by
  unfold dedupByUrl at h
  rcases List.mem_map.mp h with ⟨p, hp, hsnd⟩
  rcases List.mem_filter.mp hp with ⟨henum, hpred⟩
  obtain ⟨i, r2⟩ := p
  have hr2 : r2 = r := hsnd
  subst hr2
  have hfi : List.findIdx? (fun s => s.url == r2.url) l = some i := by
    simpa using hpred
  have henum2 : (i, r2) ∈ List.enumFrom 0 l := henum
  have hmem := List.mem_enumFrom henum2
  have hilen : i < l.length := by omega
  have hri : r2 = l[i - 0] := hmem.2.2
  have hget : l[i]? = some r2 := by
    rw [List.getElem?_eq_getElem hilen]
    exact congrArg some (by simpa using hri.symm)
  exact find?_of_findIdx? _ l i hfi r2 hget

theorem dedupByUrl_pairwise (l : List ExaResult) :
    List.Pairwise (fun a b => a.url ≠ b.url) (dedupByUrl l) := by
  unfold dedupByUrl
  rw [List.pairwise_map]
  have h1 : List.Pairwise (fun p q : Nat × ExaResult => p.1 < q.1) l.enum :=
    pairwise_enumFrom l 0
  have h2 := h1.filter (fun p => l.findIdx? (fun s => s.url == p.2.url) == some p.1)
  refine List.Pairwise.imp_of_mem ?_ h2
  intro p q hp hq hlt
  have hfp : List.findIdx? (fun s => s.url == p.2.url) l = some p.1 := by
    simpa using (List.mem_filter.mp hp).2
  have hfq : List.findIdx? (fun s => s.url == q.2.url) l = some q.1 := by
    simpa using (List.mem_filter.mp hq).2
  intro heq
  have hfun : (fun s : ExaResult => s.url == p.2.url) =
      (fun s : ExaResult => s.url == q.2.url) := by
    funext s; rw [heq]
  rw [hfun, hfq] at hfp
  injection hfp with hpq
  omega

theorem dedupByUrl_subset (l : List ExaResult) :
    ∀ r ∈ dedupByUrl l, r ∈ l :=
  fun r h => List.mem_of_find?_eq_some (dedupByUrl_first l r h)

/-- C5 (amended): the merge output is a permutation of the first 15
first-occurrence-deduplicated hits (no two output urls coincide, every
output hit is the first flattened hit carrying its url, at most 15 hits
survive), and when every hit carries a parseable date the output is
sorted by date descending.  Hits whose date is absent were replaced by
the unparsable string "Unknown Date" upstream, so they compare equal to
everything instead of as 1900-01-01. -/
theorem searchWithExaMerge_props (batchResults : List (Option (List ExaResult))) :
    List.Perm (searchWithExaMerge batchResults)
      ((dedupByUrl ((batchResults.filterMap id).flatten)).take 15) ∧
    List.Pairwise (fun a b => a.url ≠ b.url) (searchWithExaMerge batchResults) ∧
    (∀ r ∈ searchWithExaMerge batchResults,
      ((batchResults.filterMap id).flatten).find? (fun s => s.url == r.url) = some r) ∧
    (searchWithExaMerge batchResults).length ≤ 15 ∧
    ((∀ r ∈ (batchResults.filterMap id).flatten, (exaDateOf r).isSome) →
      List.Pairwise (fun a b => (exaDateOf b).getD 0 ≤ (exaDateOf a).getD 0)
        (searchWithExaMerge batchResults)) := by
  have hdef : searchWithExaMerge batchResults =
      jsStableSort exaLe
        ((dedupByUrl ((batchResults.filterMap id).flatten)).take 15) := rfl
  have hperm := perm_jsStableSort exaLe
    ((dedupByUrl ((batchResults.filterMap id).flatten)).take 15)
  refine ⟨by rw [hdef]; exact hperm, ?_, ?_, ?_, ?_⟩
  · have hd := dedupByUrl_pairwise ((batchResults.filterMap id).flatten)
    have ht := hd.sublist (List.take_sublist 15 _)
    rw [hdef]
    exact ((List.Perm.pairwise_iff (fun hxy => fun e => hxy e.symm) hperm).mpr ht)
  · intro r hr
    rw [hdef] at hr
    have hrt := hperm.mem_iff.mp hr
    have hrd := (List.take_sublist 15 _).subset hrt
    exact dedupByUrl_first _ r hrd
  · rw [hdef, hperm.length_eq, List.length_take]
    exact min_le_left _ _
  · intro hall
    rw [hdef]
    refine pairwise_jsStableSort ?_ exaLe _ ?_
    · intro x y z hxy hyz
      exact le_trans hyz hxy
    · intro a ha x hx
      have ha2 : a ∈ (batchResults.filterMap id).flatten :=
        dedupByUrl_subset _ a ((List.take_sublist 15 _).subset ha)
      have hx2 : x ∈ (batchResults.filterMap id).flatten :=
        dedupByUrl_subset _ x ((List.take_sublist 15 _).subset hx)
      obtain ⟨ka, hka⟩ := Option.isSome_iff_exists.mp (hall a ha2)
      obtain ⟨kx, hkx⟩ := Option.isSome_iff_exists.mp (hall x hx2)
      constructor
      · intro ht
        have hcmp : exaCmp a x ≤ 0 := of_decide_eq_true ht
        simp only [exaCmp, hka, hkx] at hcmp
        rw [hka, hkx]
        simp only [Option.getD_some]
        omega
      · intro hf
        have hcmp : ¬ exaCmp a x ≤ 0 := of_decide_eq_false hf
        simp only [exaCmp, hka, hkx] at hcmp
        rw [hka, hkx]
        simp only [Option.getD_some]
        omega

/-- A dated hit used by the C5 theorems. -/
def hitB : ExaResult := ⟨"https://b", "B", "2020-01-02", "q"⟩

/-- An older dated hit used by the C5 witness. -/
def hitC : ExaResult := ⟨"https://c", "C", "2019-05-05", "q"⟩

/-- A hit whose provider date was absent and became the literal
"Unknown Date". -/
def hitUnknown : ExaResult := ⟨"https://a", "A", "Unknown Date", "q"⟩

/-- C5 witness: with two parseable dates the merge emits them newest
first. -/
theorem searchWithExaMerge_props_witness :
    List.Pairwise (fun a b => (exaDateOf b).getD 0 ≤ (exaDateOf a).getD 0)
      (searchWithExaMerge [some [hitC, hitB]]) := by
  refine (searchWithExaMerge_props [some [hitC, hitB]]).2.2.2.2 ?_
  intro r hr
  have h2 : r = hitC ∨ r = hitB := by simpa using hr
  rcases h2 with rfl | rfl <;> decide

/-- C5 counterexample: a hit with the unparsable date "Unknown Date"
stays in front of a 2020-dated hit (the comparator sees NaN, treated as
equal, and the stable sort keeps input order), while the spec's
sort-as-1900-01-01 rule would put it last. -/
theorem searchWithExaMerge_counterexample :
    searchWithExaMerge [some [hitUnknown, hitB]] = [hitUnknown, hitB] ∧
    specMergeSorted [some [hitUnknown, hitB]] = [hitB, hitUnknown] := by
  constructor <;> decide

/-! ## Token coverage and backfill selection

Source: src/unnamed/part_000 lines 692-731.  A detected token carries a
list of regex predicates; a regex test is a boolean function of the
tested string, which is exactly how it enters the model. -/

structure CryptoToken where
  name : String
  patterns : List (String → Bool)

/-- Source part_000 lines 694-698: a document covers a token when some
pattern matches title plus space plus cleanedContent. -/
def tokenMatches (t : CryptoToken) (c : ScrapedContent) : Bool :=
  t.patterns.any (fun p => p (c.title ++ " " ++ c.cleanedContent))

/-- Coverage count of a token over a scraped-content set. -/
def coverageCount (t : CryptoToken) (contents : List ScrapedContent) : Nat :=
  (contents.filter (fun c => tokenMatches t c)).length

/-- Source part_000 lines 703-706: the tokens selected for backfill are
exactly those whose coverage is zero. -/
def missingTokens (detected : List CryptoToken)
    (contents : List ScrapedContent) : List CryptoToken :=
  detected.filter (fun t => coverageCount t contents == 0)

/-- C6: backfill is selected exactly for detected tokens with zero
coverage (tokens with coverage at least one are untouched), and appending
the backfill documents can only increase every token's recomputed
coverage. -/
theorem coverage_backfill_props (detected : List CryptoToken)
    (contents extra : List ScrapedContent) :
    (∀ t, t ∈ missingTokens detected contents ↔
      t ∈ detected ∧ coverageCount t contents = 0) ∧
    (∀ t, coverageCount t contents ≤ coverageCount t (contents ++ extra)) := by
  constructor
  · intro t
    simp [missingTokens, List.mem_filter]
  · intro t
    simp only [coverageCount, List.filter_append, List.length_append]
    exact Nat.le_add_right _ _

/-! ## Query Expander, part_000 variant

Source: src/unnamed/part_000 lines 290-325 (generateSynonyms).  The raw
model output enters as the string `content`; JSON.parse is a platform
primitive and enters as the parameter `jsonParse`, returning the object's
entries in insertion order (`none` models a parse exception); only
string-valued entries matter to the source. -/

inductive JsonVal where
  | str (s : String)
  | other
deriving Repr, DecidableEq

/-- Model of matching the regex brace-anything-brace: the match exists
exactly when some closing brace follows the first opening brace, and by
leftmost-greedy semantics it spans from the first opening brace to the
last closing brace. -/
def braceMatch (s : String) : Option String :=
  let cs := s.data
  match cs.findIdx? (fun c => c == openBrace),
      cs.reverse.findIdx? (fun c => c == closeBrace) with
  | some i, some rj =>
    let j := cs.length - 1 - rj
    if i < j then some (String.mk ((cs.drop i).take (j - i + 1))) else none
  | _, _ => none

/-- Source part_000 lines 303-319: extract the brace-delimited substring;
if none exists the try-body does nothing and the synonym list stays
empty; if JSON.parse throws, fall back to the three suffix-appended
variants; otherwise keep trimmed non-empty string values different from
the original query. -/
def parseSynonymsP0 (jsonParse : String → Option (List (String × JsonVal)))
    (content originalQuery : String) : List String :=
  match braceMatch content with
  | none => []
  | some m =>
    match jsonParse m with
    | none => [originalQuery ++ " analysis", originalQuery ++ " trends",
        originalQuery ++ " news"]
    | some entries =>
      entries.foldl (fun acc kv =>
        match kv.2 with
        | JsonVal.str v =>
          let syn := jsTrim v
          if syn ≠ "" ∧ syn ≠ originalQuery then acc ++ [syn] else acc
        | JsonVal.other => acc) []

structure SynonymResponse where
  synonyms : List String
  originalQuery : String
deriving Repr, DecidableEq

/-- Source part_000 lines 321-324: the expander always returns a
response object (it never throws). -/
def generateSynonymsP0 (jsonParse : String → Option (List (String × JsonVal)))
    (content originalQuery : String) : SynonymResponse :=
  { synonyms := parseSynonymsP0 jsonParse content originalQuery
    originalQuery := originalQuery }

/-- C7 (amended): the part_000 expander never throws and behaves as
follows on parse failure: when the model output has no brace-delimited
substring it returns zero synonyms, and when a brace-delimited substring
exists but JSON.parse fails it returns exactly the three fixed
suffix-appended variants of the original query. -/
theorem generateSynonymsP0_fallback
    (jsonParse : String → Option (List (String × JsonVal))) (content q : String) :
    (braceMatch content = none →
      generateSynonymsP0 jsonParse content q = ⟨[], q⟩) ∧
    (∀ m, braceMatch content = some m → jsonParse m = none →
      generateSynonymsP0 jsonParse content q =
        ⟨[q ++ " analysis", q ++ " trends", q ++ " news"], q⟩) := by
  constructor
  · intro h
    simp [generateSynonymsP0, parseSynonymsP0, h]
  · intro m hm hp
    simp [generateSynonymsP0, parseSynonymsP0, hm, hp]

/-- A model output holding a brace-delimited substring that is not valid
JSON. -/
def malformedJson : String := String.mk [openBrace, 'x', closeBrace]

/-- C7 witness: on malformed brace-delimited output the expander returns
the three suffix-appended variants. -/
theorem generateSynonymsP0_fallback_witness :
    generateSynonymsP0 (fun _ => none) malformedJson ("btc") =
      ⟨["btc analysis", "btc trends", "btc news"], "btc"⟩ := by
  have h := (generateSynonymsP0_fallback (fun _ => none) malformedJson ("btc")).2
    malformedJson (by decide) rfl
  rw [h]
  decide

/-- C7 counterexample: on the rejection sentence, which contains no brace
at all, the expander returns zero synonyms, not the claimed non-empty
fallback set. -/
theorem generateSynonymsP0_counterexample :
    (generateSynonymsP0 (fun _ => none)
      ("Sorry, please ask about crypto-related insights.")
      ("What is the weather today")).synonyms = [] := by
  decide

/-! ## Catalog-backed asset resolution

Source: src/unnamed/part_001 lines 1509-1535 (retrieveCoinIDs) and lines
712-736 (findMatchingAssets). -/

structure CatalogEntry where
  id : String
  symbol : String
  name : String
deriving Repr, DecidableEq

/-- Exact case-insensitive match of a lowercased candidate against symbol
or name. -/
def exactMatch (lt : String) (a : CatalogEntry) : Bool :=
  jsToLower a.symbol == lt || jsToLower a.name == lt

/-- Case-insensitive containment of the candidate in a catalog name. -/
def partialNameMatch (lt : String) (a : CatalogEntry) : Bool :=
  listContainsSub (jsToLower a.name).data lt.data

/-- Source part_001 lines 1516-1527: first exact match on symbol or name,
else first partial-name match.  This also states the spec's resolution
rule word for word. -/
def resolveCandidate (knowledgeBase : List CatalogEntry) (t : String) :
    Option CatalogEntry :=
  let lt := jsToLower t
  match knowledgeBase.find? (exactMatch lt) with
  | some a => some a
  | none => knowledgeBase.find? (partialNameMatch lt)

/-- Source part_001 lines 1513-1532: the retrieval loop with its
added-ids set. -/
def retrieveGo (knowledgeBase : List CatalogEntry) :
    List String → List String → List CatalogEntry
  | [], _ => []
  | t :: ts, addedIds =>
    match resolveCandidate knowledgeBase t with
    | some a =>
      if addedIds.contains a.id then retrieveGo knowledgeBase ts addedIds
      else a :: retrieveGo knowledgeBase ts (a.id :: addedIds)
    | none => retrieveGo knowledgeBase ts addedIds

/-- Source part_001 retrieveCoinIDs. -/
def retrieveCoinIDs (potentialTokens : List String)
    (knowledgeBase : List CatalogEntry) : List CatalogEntry :=
  retrieveGo knowledgeBase potentialTokens []

/-- First-occurrence deduplication by canonical id, with a seen set. -/
def dedupByIdGo : List CatalogEntry → List String → List CatalogEntry
  | [], _ => []
  | a :: as, seen =>
    if seen.contains a.id then dedupByIdGo as seen
    else a :: dedupByIdGo as (a.id :: seen)

/-- First-occurrence deduplication by canonical id. -/
def dedupById (l : List CatalogEntry) : List CatalogEntry := dedupByIdGo l []

theorem retrieveGo_eq_dedup (knowledgeBase : List CatalogEntry) :
    ∀ (toks : List String) (seen : List String),
      retrieveGo knowledgeBase toks seen =
        dedupByIdGo (toks.filterMap (resolveCandidate knowledgeBase)) seen := by
  intro toks
  induction toks with
  | nil => intro seen; rfl
  | cons t ts ih =>
    intro seen
    cases hres : resolveCandidate knowledgeBase t with
    | none => simp [retrieveGo, List.filterMap_cons, hres, ih]
    | some a =>
      simp only [retrieveGo, List.filterMap_cons, hres, dedupByIdGo]
      by_cases hseen : seen.contains a.id
      · simp [hseen, ih]
      · simp [hseen, ih]

theorem dedupByIdGo_not_seen :
    ∀ (l : List CatalogEntry) (seen : List String) (a : CatalogEntry),
      a ∈ dedupByIdGo l seen → seen.contains a.id = false := by
  intro l
  induction l with
  | nil => intro seen a h; simp [dedupByIdGo] at h
  | cons b bs ih =>
    intro seen a h
    by_cases hb : seen.contains b.id
    · rw [dedupByIdGo, if_pos hb] at h
      exact ih seen a h
    · rw [dedupByIdGo, if_neg hb] at h
      rcases List.mem_cons.mp h with rfl | h2
      · simpa using hb
      · have h3 := ih (b.id :: seen) a h2
        rw [List.contains_cons] at h3
        exact (Bool.or_eq_false_iff.mp h3).2

theorem dedupByIdGo_pairwise :
    ∀ (l : List CatalogEntry) (seen : List String),
      List.Pairwise (fun a b => a.id ≠ b.id) (dedupByIdGo l seen) := by
  intro l
  induction l with
  | nil => intro seen; simp [dedupByIdGo]
  | cons b bs ih =>
    intro seen
    by_cases hb : seen.contains b.id
    · rw [dedupByIdGo, if_pos hb]
      exact ih seen
    · rw [dedupByIdGo, if_neg hb]
      refine List.pairwise_cons.mpr ⟨?_, ih (b.id :: seen)⟩
      intro y hy
      have h3 := dedupByIdGo_not_seen bs (b.id :: seen) y hy
      rw [List.contains_cons] at h3
      have h4 := (Bool.or_eq_false_iff.mp h3).1
      intro heq
      rw [heq] at h4
      simp at h4

/-- C9 (amended, holding for retrieveCoinIDs): the retrieval resolves
each candidate to at most one catalog entry, namely the first exact
case-insensitive match on symbol or name and otherwise the first
partial-name match, and deduplicates the result by canonical id so that
no two returned entries share an id. -/
theorem retrieveCoinIDs_resolution (potentialTokens : List String)
    (knowledgeBase : List CatalogEntry) :
    retrieveCoinIDs potentialTokens knowledgeBase =
      dedupById (potentialTokens.filterMap (resolveCandidate knowledgeBase)) ∧
    List.Pairwise (fun a b => a.id ≠ b.id)
      (retrieveCoinIDs potentialTokens knowledgeBase) := by
  constructor
  · exact retrieveGo_eq_dedup knowledgeBase potentialTokens []
  · rw [retrieveCoinIDs, retrieveGo_eq_dedup knowledgeBase potentialTokens []]
    exact dedupByIdGo_pairwise _ []

/-- Source part_001 lines 712-736 (findMatchingAssets): collect every
asset whose symbol or name equals some candidate, then additionally every
asset whose name contains some candidate and whose id is not yet
present. -/
def findMatchingAssets (potentialTokens : List String)
    (assetList : List CatalogEntry) : List CatalogEntry :=
  let lowerTokens := potentialTokens.map jsToLower
  let matches1 := assetList.foldl (fun acc a =>
    if lowerTokens.contains (jsToLower a.symbol) ||
        lowerTokens.contains (jsToLower a.name)
    then acc ++ [a] else acc) ([] : List CatalogEntry)
  lowerTokens.foldl (fun acc lt =>
    assetList.foldl (fun acc2 a =>
      if partialNameMatch lt a && !(acc2.any (fun m => m.id == a.id))
      then acc2 ++ [a] else acc2) acc) matches1

/-- A two-entry catalog on which the two resolution variants diverge. -/
def cexCatalog : List CatalogEntry :=
  [⟨"bitcoin", "btc", "Bitcoin"⟩, ⟨"bitcoin-cash", "bch", "Bitcoin Cash"⟩]

/-- C9 counterexample: the findMatchingAssets variant returns two catalog
entries for the single candidate "bitcoin" (the exact match Bitcoin and
the partial match Bitcoin Cash), so resolution through it is not
at-most-one-entry-per-candidate as the claim states. -/
theorem findMatchingAssets_counterexample :
    (findMatchingAssets [("bitcoin")] cexCatalog).length = 2 ∧
    retrieveCoinIDs [("bitcoin")] cexCatalog =
      [⟨"bitcoin", "btc", "Bitcoin"⟩] := by
  constructor <;> decide

/-! ## Pipeline entry points and the rejection gate

Sources: src/unnamed/part_001 lines 632-797 (the main with the rejection
gate) and src/unnamed/part_000 lines 669-745 (the main without it).  A
main is modelled as a function from the collaborator outcomes of one run
to the pair of the list of search/scrape/catalog/synthesis calls it
performs and the user-visible outcome message.  LLM sanitize and
relevance-classifier calls, memory writes and log lines are none of these
events. -/

inductive PipelineEvent where
  | search (queries : List String)
  | scrapeCall (url : String)
  | catalogFetch
  | synthesis
deriving Repr, DecidableEq

/-- The fixed rejection sentence printed by the gates. -/
def rejectionMessage : String := "Sorry, please ask about crypto-related insights."

/-- Model of the anchored ignore-case regex of part_001 line 653: the
whole sanitized string is the rejection sentence with an optional final
period. -/
def rejectionSentenceTest (s : String) : Bool :=
  let t := (jsToLower s).data
  t == ("sorry, please ask about crypto-related insights").data ||
  t == ("sorry, please ask about crypto-related insights.").data

/-- Model of the unanchored ignore-case regex of part_001 line 672: since
the final period of the pattern is optional, the test succeeds exactly
when the base sentence occurs as a substring. -/
def rejectionInfixTest (s : String) : Bool :=
  listContainsSub (jsToLower s).data
    ("sorry, please ask about crypto-related insights").data

/-- Comma-joined quoted strings, as JSON.stringify renders an array of
strings holding no character that needs escaping. -/
def quoteJoin (l : List String) : String :=
  String.intercalate "," (l.map (fun s => "\"" ++ s ++ "\""))

/-- JSON.stringify of a SynonymResponse, restricted to escape-free member
strings (the only ones these theorems use). -/
def stringifySynonymResponse (r : SynonymResponse) : String :=
  "\x7b\"synonyms\":[" ++ quoteJoin r.synonyms ++ "],\"originalQuery\":\"" ++
    r.originalQuery ++ "\"\x7d"

structure Collab1 where
  userQuery : String
  sanitized : String
  cryptoRelated : Bool
  synonymResponse : SynonymResponse
  searchUrls : List String
  analysis : String
deriving Repr, DecidableEq

/-- Source part_001 main, lines 632-797: the sanitized-query gate, the
crypto-relevance gate, the two zero-synonym gates, then one search, one
scrape per returned url, the catalog fetch and the final synthesis. -/
def mainPart1 (c : Collab1) : List PipelineEvent × String :=
  if rejectionSentenceTest c.sanitized then ([], rejectionMessage)
  else if !c.cryptoRelated then ([], rejectionMessage)
  else if c.synonymResponse.synonyms.isEmpty &&
      rejectionInfixTest (stringifySynonymResponse c.synonymResponse) then
    ([], rejectionMessage)
  else if c.synonymResponse.synonyms.isEmpty then ([], rejectionMessage)
  else
    (PipelineEvent.search (c.userQuery :: c.synonymResponse.synonyms) ::
      (c.searchUrls.map PipelineEvent.scrapeCall ++
        [PipelineEvent.catalogFetch, PipelineEvent.synthesis]), c.analysis)

structure Collab0 where
  userQuery : String
  synonymResponse : SynonymResponse
  searchUrls : List String
  backfillEvents : List PipelineEvent
  analysis : String
deriving Repr, DecidableEq

/-- Source part_000 main, lines 669-745: no rejection gate exists; the
pipeline always sends the original query plus all synonyms to the search
collaborator, scrapes every returned url, runs the backfill loop (whose
events enter as a parameter because they depend on nested search
results; they are empty when no token is missing), and synthesizes. -/
def mainPart0 (c : Collab0) : List PipelineEvent × String :=
  (PipelineEvent.search (c.userQuery :: c.synonymResponse.synonyms) ::
    (c.searchUrls.map PipelineEvent.scrapeCall ++ c.backfillEvents ++
      [PipelineEvent.synthesis]), c.analysis)

/-- C8 (amended, holding for the part_001 main): whenever the expander
produced zero synonyms - in particular when it answered with the fixed
rejection sentence - the pipeline prints the rejection message and
performs no search, scrape, catalog or synthesis call. -/
theorem mainPart1_rejects_without_calls (c : Collab1)
    (h : c.synonymResponse.synonyms = []) :
    mainPart1 c = ([], rejectionMessage) := by
  have he : c.synonymResponse.synonyms.isEmpty = true := by rw [h]; rfl
  unfold mainPart1
  by_cases h1 : rejectionSentenceTest c.sanitized
  · rw [if_pos h1]
  · rw [if_neg h1]
    by_cases h2 : !c.cryptoRelated
    · rw [if_pos h2]
    · rw [if_neg h2]
      by_cases h3 : c.synonymResponse.synonyms.isEmpty &&
          rejectionInfixTest (stringifySynonymResponse c.synonymResponse)
      · rw [if_pos h3]
      · rw [if_neg h3, if_pos he]

/-- A collaborator record for a rejected weather query: all gates passed
except that the expander returned zero synonyms. -/
def rejectedCollab1 : Collab1 :=
  ⟨"What is the weather today", "What is the weather today", true,
    ⟨[], "What is the weather today"⟩, [], "unused"⟩

/-- C8 witness: the part_001 main rejects the weather query without any
pipeline call. -/
theorem mainPart1_rejects_without_calls_witness :
    mainPart1 rejectedCollab1 = ([], rejectionMessage) :=
  mainPart1_rejects_without_calls rejectedCollab1 rfl

/-- The same rejected query arriving at the part_000 main. -/
def rejectedCollab0 : Collab0 :=
  ⟨"What is the weather today", ⟨[], "What is the weather today"⟩, [], [], "report"⟩

/-- C8 counterexample: the part_000 main has no rejection gate: even with
zero synonyms it performs a search call carrying the original query and
returns the synthesized analysis, not the rejection message. -/
theorem mainPart0_counterexample :
    (mainPart0 rejectedCollab0).1 =
      [PipelineEvent.search [("What is the weather today")],
        PipelineEvent.synthesis] ∧
    (mainPart0 rejectedCollab0).2 ≠ rejectionMessage := by
  constructor
  · rfl
  · decide

end CryptoAgentVerify
